import Mathlib

/-!
# Verification of the landlord multitenancy core

Shallow embedding of the tenant-configuration resolution engine:
* `JVal` models JSON-like configuration values (the tenant `config` trees);
  JavaScript objects are modelled as insertion-ordered association lists.
* `mergeVal` models lodash `_.merge` restricted to these trees: the two
  layers are merged recursively on object/object pairs and otherwise the
  second (later) layer's value wins.
* `Tenant` models the `Tenant` class (`tenant.js`): name, config, the stored
  database handle `_db` and the stored finalizer `_dbFinalizer`.
* `Landlord.loadTenants`, `Landlord.detachDatabases` and
  `bindTenantToRequest` model the corresponding functions of `landlord.js`
  and `express-landlord.js`.  Logging is observationally irrelevant to the
  claims and is omitted; exceptions are modelled with `Except` or with an
  explicit `Option`-error component where the mutation state at the point of
  the throw matters.
-/

set_option maxHeartbeats 1000000

/-- JSON-like configuration values.  A JavaScript object literal is modelled
as an insertion-ordered association list of fields. -/
inductive JVal : Type where
  | num (n : Int)
  | str (s : String)
  | obj (fields : List (String × JVal))

/-- Property lookup on an object's field list (first match wins; real JS
objects never hold a duplicate key, see `WFb`). -/
def lookupJ (k : String) : List (String × JVal) → Option JVal
  | [] => none
  | (k', v) :: rest => if k' = k then some v else lookupJ k rest

mutual
/-- Deep structural merge, modelling `_.merge({}, a, b)` on configuration
trees: when both sides are objects the fields are merged recursively, with
`a`'s keys first (in order) followed by `b`'s new keys; in every other case
the second (later) layer `b` wins. -/
def mergeVal : JVal → JVal → JVal
  | .obj xs, .obj ys =>
      .obj (mergeLeft xs ys ++ ys.filter (fun p => (lookupJ p.1 xs).isNone))
  | _, b => b

/-- Merge the fields of the later layer `ys` into each field of the earlier
layer `xs`, keeping `xs`'s key order. -/
def mergeLeft : List (String × JVal) → List (String × JVal) → List (String × JVal)
  | [], _ => []
  | (k, v) :: rest, ys =>
      (match lookupJ k ys with
       | some w => (k, mergeVal v w)
       | none => (k, v)) :: mergeLeft rest ys
end

mutual
/-- Well-formedness of a configuration value: every object level has
pairwise-distinct keys, as is the case for every real JavaScript object. -/
def WFb : JVal → Bool
  | .num _ => true
  | .str _ => true
  | .obj xs => decide ((xs.map Prod.fst).Nodup) && WFfields xs

/-- Well-formedness of a field list's values. -/
def WFfields : List (String × JVal) → Bool
  | [] => true
  | (_, v) :: rest => WFb v && WFfields rest
end

theorem mergeVal_num (n : Int) (b : JVal) : mergeVal (.num n) b = b := by
  cases b <;> rfl

theorem mergeVal_str (s : String) (b : JVal) : mergeVal (.str s) b = b := by
  cases b <;> rfl

theorem mergeVal_obj_num (xs : List (String × JVal)) (n : Int) :
    mergeVal (.obj xs) (.num n) = .num n := rfl

theorem mergeVal_obj_str (xs : List (String × JVal)) (s : String) :
    mergeVal (.obj xs) (.str s) = .str s := rfl

theorem mergeVal_obj_obj (xs ys : List (String × JVal)) :
    mergeVal (.obj xs) (.obj ys)
      = .obj (mergeLeft xs ys ++ ys.filter (fun p => (lookupJ p.1 xs).isNone)) := rfl

theorem mergeLeft_nil (ys : List (String × JVal)) : mergeLeft [] ys = [] := rfl

theorem mergeLeft_cons (k : String) (v : JVal) (rest ys : List (String × JVal)) :
    mergeLeft ((k, v) :: rest) ys
      = (match lookupJ k ys with
         | some w => (k, mergeVal v w)
         | none => (k, v)) :: mergeLeft rest ys := rfl

theorem WFfields_forall {xs : List (String × JVal)} (h : WFfields xs = true) :
    ∀ p ∈ xs, WFb p.2 = true := by
  induction xs with
  | nil => intro p hp; cases hp
  | cons hd tl ih =>
    obtain ⟨k, v⟩ := hd
    rw [WFfields, Bool.and_eq_true] at h
    intro p hp
    rcases List.mem_cons.mp hp with h1 | h1
    · subst h1; exact h.1
    · exact ih h.2 p h1

theorem WFb_obj_nodup {xs : List (String × JVal)} (h : WFb (.obj xs) = true) :
    (xs.map Prod.fst).Nodup := by
  rw [WFb, Bool.and_eq_true, decide_eq_true_eq] at h
  exact h.1

theorem WFb_obj_fields {xs : List (String × JVal)} (h : WFb (.obj xs) = true) :
    ∀ p ∈ xs, WFb p.2 = true := by
  rw [WFb, Bool.and_eq_true] at h
  exact WFfields_forall h.2

theorem lookupJ_eq_of_nodup {xs : List (String × JVal)} {k : String} {v : JVal}
    (hnd : (xs.map Prod.fst).Nodup) (hm : (k, v) ∈ xs) : lookupJ k xs = some v := by
  induction xs with
  | nil => cases hm
  | cons hd tl ih =>
    obtain ⟨k', v'⟩ := hd
    rw [List.map_cons, List.nodup_cons] at hnd
    rcases List.mem_cons.mp hm with h1 | h1
    · obtain ⟨hk, hv⟩ := Prod.mk.injEq .. ▸ h1
      simp [lookupJ, hk.symm, hv]
    · have hk : k' ≠ k := by
        intro heq
        exact hnd.1 (heq ▸ List.mem_map.mpr ⟨(k, v), h1, rfl⟩)
      simp only [lookupJ, if_neg hk]
      exact ih hnd.2 h1

theorem lookupJ_isSome_of_mem {xs : List (String × JVal)} {p : String × JVal}
    (hm : p ∈ xs) : (lookupJ p.1 xs).isSome = true := by
  induction xs with
  | nil => cases hm
  | cons hd tl ih =>
    obtain ⟨k', v'⟩ := hd
    by_cases hk : k' = p.1
    · simp [lookupJ, hk]
    · rcases List.mem_cons.mp hm with h1 | h1
      · exact absurd (congrArg Prod.fst h1.symm) hk
      · simp only [lookupJ, if_neg hk]
        exact ih h1

theorem lookupJ_eq_none_iff {xs : List (String × JVal)} {k : String} :
    lookupJ k xs = none ↔ k ∉ xs.map Prod.fst := by
  induction xs with
  | nil => simp [lookupJ]
  | cons hd tl ih =>
    obtain ⟨k', v'⟩ := hd
    by_cases hk : k' = k
    · simp [lookupJ, hk]
    · simp [lookupJ, hk, ih, Ne.symm hk]

theorem lookupJ_append (k : String) (as bs : List (String × JVal)) :
    lookupJ k (as ++ bs)
      = match lookupJ k as with
        | some v => some v
        | none => lookupJ k bs := by
  induction as with
  | nil => simp [lookupJ]
  | cons hd tl ih =>
    obtain ⟨k', v'⟩ := hd
    by_cases hk : k' = k
    · simp [lookupJ, hk]
    · simpa [lookupJ, hk] using ih

theorem mergeHead_eq (k : String) (v : JVal) (ys : List (String × JVal)) :
    (match lookupJ k ys with
     | some w => (k, mergeVal v w)
     | none => (k, v))
      = (k, match lookupJ k ys with
            | some w => mergeVal v w
            | none => v) := by
  cases lookupJ k ys <;> rfl

theorem keys_mergeLeft (xs ys : List (String × JVal)) :
    (mergeLeft xs ys).map Prod.fst = xs.map Prod.fst := by
  induction xs with
  | nil => rfl
  | cons hd tl ih =>
    obtain ⟨k, v⟩ := hd
    rw [mergeLeft_cons, mergeHead_eq, List.map_cons, List.map_cons, ih]

/-- `mergeLeft xs ys` only depends on `ys` through the per-key merged value. -/
theorem mergeLeft_ext {xs ys zs : List (String × JVal)}
    (h : ∀ p ∈ xs,
        (match lookupJ p.1 zs with
         | some w => mergeVal p.2 w
         | none => p.2)
        = (match lookupJ p.1 ys with
           | some w => mergeVal p.2 w
           | none => p.2)) :
    mergeLeft xs zs = mergeLeft xs ys := by
  induction xs with
  | nil => rfl
  | cons hd tl ih =>
    obtain ⟨k, v⟩ := hd
    rw [mergeLeft_cons, mergeLeft_cons, mergeHead_eq, mergeHead_eq]
    have h0 := h (k, v) (List.mem_cons_self _ _)
    rw [ih (fun p hp => h p (List.mem_cons_of_mem _ hp))]
    exact congrArg (fun x => (k, x) :: mergeLeft tl ys) h0

theorem lookupJ_mergeLeft (k : String) (xs ys : List (String × JVal)) :
    lookupJ k (mergeLeft xs ys)
      = match lookupJ k xs with
        | none => none
        | some v =>
            some (match lookupJ k ys with
                  | some w => mergeVal v w
                  | none => v) := by
  induction xs with
  | nil => rfl
  | cons hd tl ih =>
    obtain ⟨k', v'⟩ := hd
    rw [mergeLeft_cons, mergeHead_eq]
    by_cases hk : k' = k
    · subst hk
      simp [lookupJ]
    · simp only [lookupJ, if_neg hk]
      exact ih

theorem filter_mergeLeft_nil (xs ys : List (String × JVal)) :
    (mergeLeft xs ys).filter (fun p => (lookupJ p.1 xs).isNone) = [] := by
  rw [List.filter_eq_nil_iff]
  intro p hp
  have hkey : p.1 ∈ xs.map Prod.fst := by
    rw [← keys_mergeLeft xs ys]
    exact List.mem_map.mpr ⟨p, hp, rfl⟩
  have : lookupJ p.1 xs ≠ none := fun h => (lookupJ_eq_none_iff.mp h) hkey
  simp [Option.isNone_iff_eq_none, this]

theorem filter_filter_lookup (xs ys : List (String × JVal)) :
    ((ys.filter (fun p => (lookupJ p.1 xs).isNone)).filter
        (fun p => (lookupJ p.1 xs).isNone))
      = ys.filter (fun p => (lookupJ p.1 xs).isNone) := by
  rw [List.filter_filter]
  simp

theorem mergeLeft_self_of {xs ys : List (String × JVal)}
    (h : ∀ p ∈ xs,
        (match lookupJ p.1 ys with
         | some w => mergeVal p.2 w
         | none => p.2) = p.2) :
    mergeLeft xs ys = xs := by
  induction xs with
  | nil => rfl
  | cons hd tl ih =>
    obtain ⟨k, v⟩ := hd
    rw [mergeLeft_cons, mergeHead_eq]
    rw [ih (fun p hp => h p (List.mem_cons_of_mem _ hp))]
    exact congrArg (fun x => (k, x) :: tl) (h (k, v) (List.mem_cons_self _ _))

theorem sizeOf_snd_le_of_mem {xs : List (String × JVal)} {n : Nat}
    (hsz : sizeOf (JVal.obj xs) ≤ n + 1) :
    ∀ p ∈ xs, sizeOf p.2 ≤ n := by
  intro p hp
  have h1 : sizeOf p < sizeOf xs := List.sizeOf_lt_of_mem hp
  have h2 : sizeOf p.2 < sizeOf p := by
    obtain ⟨a, b⟩ := p
    simp only [Prod.mk.sizeOf_spec]
    omega
  have h3 : sizeOf (JVal.obj xs) = 1 + sizeOf xs := by simp
  omega

theorem filter_self_keys_nil (xs : List (String × JVal)) :
    xs.filter (fun p => (lookupJ p.1 xs).isNone) = [] := by
  rw [List.filter_eq_nil_iff]
  intro p hp
  have hs := lookupJ_isSome_of_mem hp
  cases h : lookupJ p.1 xs with
  | none => rw [h] at hs; cases hs
  | some v => simp [h]

/-- Merging a well-formed value with itself is the identity. -/
theorem mergeVal_self_aux :
    ∀ (n : Nat) (d : JVal), sizeOf d ≤ n → WFb d = true → mergeVal d d = d := by
  intro n
  induction n with
  | zero =>
    intro d hsz
    exfalso
    cases d <;> simp at hsz
  | succ n ih =>
    intro d hsz hwf
    cases d with
    | num m => rfl
    | str s => rfl
    | obj xs =>
      have hnd := WFb_obj_nodup hwf
      have hfl := WFb_obj_fields hwf
      have hsize := sizeOf_snd_le_of_mem hsz
      rw [mergeVal_obj_obj]
      have hml : mergeLeft xs xs = xs := by
        apply mergeLeft_self_of
        intro p hp
        have hm : (p.1, p.2) ∈ xs := by rwa [Prod.mk.eta]
        rw [lookupJ_eq_of_nodup hnd hm]
        exact ih p.2 (hsize p hp) (hfl p hp)
      rw [filter_self_keys_nil, hml, List.append_nil]

theorem mergeVal_self {d : JVal} (hwf : WFb d = true) : mergeVal d d = d :=
  mergeVal_self_aux (sizeOf d) d (Nat.le_refl _) hwf

/-- Re-applying a well-formed default layer beneath an already-defaulted
value changes nothing: `merge d (merge d c) = merge d c`. -/
theorem mergeVal_idem_aux :
    ∀ (n : Nat) (d : JVal), sizeOf d ≤ n → WFb d = true →
      ∀ c : JVal, mergeVal d (mergeVal d c) = mergeVal d c := by
  intro n
  induction n with
  | zero =>
    intro d hsz
    exfalso
    cases d <;> simp at hsz
  | succ n ih =>
    intro d hsz hwf c
    cases d with
    | num m => rw [mergeVal_num, mergeVal_num]
    | str s => rw [mergeVal_str, mergeVal_str]
    | obj xs =>
      cases c with
      | num m => rw [mergeVal_obj_num, mergeVal_obj_num]
      | str s => rw [mergeVal_obj_str, mergeVal_obj_str]
      | obj ys =>
        have hnd := WFb_obj_nodup hwf
        have hfl := WFb_obj_fields hwf
        have hsize := sizeOf_snd_le_of_mem hsz
        rw [mergeVal_obj_obj, mergeVal_obj_obj]
        have hml : mergeLeft xs
            (mergeLeft xs ys ++ ys.filter (fun p => (lookupJ p.1 xs).isNone))
            = mergeLeft xs ys := by
          apply mergeLeft_ext
          intro p hp
          have hlk : lookupJ p.1
              (mergeLeft xs ys ++ ys.filter (fun q => (lookupJ q.1 xs).isNone))
              = some (match lookupJ p.1 ys with
                      | some w => mergeVal p.2 w
                      | none => p.2) := by
            have hm : (p.1, p.2) ∈ xs := by rwa [Prod.mk.eta]
            rw [lookupJ_append, lookupJ_mergeLeft, lookupJ_eq_of_nodup hnd hm]
          rw [hlk]
          cases hky : lookupJ p.1 ys with
          | some w =>
            exact ih p.2 (hsize p hp) (hfl p hp) w
          | none =>
            exact mergeVal_self_aux n p.2 (hsize p hp) (hfl p hp)
        have hflt : (mergeLeft xs ys
              ++ ys.filter (fun p => (lookupJ p.1 xs).isNone)).filter
                (fun p => (lookupJ p.1 xs).isNone)
            = ys.filter (fun p => (lookupJ p.1 xs).isNone) := by
          rw [List.filter_append, filter_mergeLeft_nil, filter_filter_lookup,
            List.nil_append]
        rw [hml, hflt]

theorem mergeVal_idem {d : JVal} (hwf : WFb d = true) (c : JVal) :
    mergeVal d (mergeVal d c) = mergeVal d c :=
  mergeVal_idem_aux (sizeOf d) d (Nat.le_refl _) hwf c

/-- Arbitrary JavaScript runtime values, as stored in a tenant's `_db` slot:
the database handle returned by the caller-supplied factory. -/
inductive JsVal : Type where
  | nullV
  | undefV
  | boolV (b : Bool)
  | numV (n : Int)
  | strV (s : String)
  | objV (id : Nat)

/-- JavaScript truthiness of a runtime value. -/
def JsVal.truthy : JsVal → Bool
  | .nullV => false
  | .undefV => false
  | .boolV b => b
  | .numV n => n != 0
  | .strV s => s != ""
  | .objV _ => true

/-- JavaScript truthiness of a configuration value (objects are always
truthy, numbers and strings by the usual rules). -/
def JVal.truthyV : JVal → Bool
  | .num n => n != 0
  | .str s => s != ""
  | .obj _ => true

/-- A database finalizer: called on the stored handle for its side effect;
`some e` models the finalizer throwing the error `e`, `none` a normal
return.  The tenant's `_dbFinalizer` slot holds `none` for JavaScript
`null` (falsy) and `some f` for a stored function (truthy). -/
def Finalizer : Type := JsVal → Option String

/-- The `Tenant` class of `tenant.js`: `_name`, `_config`, `_db`
(initially `null`), `_dbFinalizer` (initially `null`). -/
structure Tenant : Type where
  name : String
  config : JVal
  db : JsVal
  dbFinalizer : Option Finalizer

/-- `Tenant.applyDefaults`: `this._config = _.merge({}, defaultConfig,
this._config)` — the existing config is merged on top of the default. -/
def Tenant.applyDefaults (t : Tenant) (defaultConfig : JVal) : Tenant :=
  { t with config := mergeVal defaultConfig t.config }

/-- The only error `Tenant.attachDatabase` raises. -/
inductive TenantError : Type where
  | alreadyAttached (msg : String)

/-- `Tenant.attachDatabase(factory, finalizer, config)`: throws when the
stored handle `_db` is truthy, otherwise stores `factory(config)` and the
finalizer. -/
def Tenant.attachDatabase (t : Tenant) (factory : JVal → JsVal)
    (finalizer : Option Finalizer) (config : JVal) : Except TenantError Tenant :=
  if t.db.truthy then
    .error (.alreadyAttached "tenant: Database already attached.")
  else
    .ok { t with db := factory config, dbFinalizer := finalizer }

/-- `Tenant.detachDatabase()`: when both `_db` and `_dbFinalizer` are
truthy, calls the finalizer; a finalizer throw propagates *before* the two
clearing assignments run, so the record is returned unchanged together
with the error.  Otherwise (or on a normal finalizer return) both slots
are cleared. -/
def Tenant.detachDatabase (t : Tenant) : Tenant × Option String :=
  if t.db.truthy then
    match t.dbFinalizer with
    | some fin =>
      match fin t.db with
      | some e => (t, some e)
      | none => ({ t with db := .nullV, dbFinalizer := none }, none)
    | none => ({ t with db := .nullV, dbFinalizer := none }, none)
  else ({ t with db := .nullV, dbFinalizer := none }, none)

/-- A configuration provider as validated by `Landlord.loadTenants`:
`loadTenants` is `some ts` when the object exposes a `loadTenants` function
(returning the tenant list `ts`; the ignored log argument is omitted) and
`none` when it does not.  `typeofStr` is JavaScript `typeof provider`,
used in the validation error message. -/
structure Provider : Type where
  typeofStr : String
  loadTenants : Option (List Tenant)

/-- The `options.providers` argument: JavaScript distinguishes a falsy /
absent value, a single (truthy, non-array) provider object, and an array
of providers. -/
inductive ProvidersArg : Type where
  | absent
  | single (p : Provider)
  | list (ps : List Provider)

/-- `Array.isArray(options.providers) ? options.providers :
[options.providers]` (only reached when the argument is truthy). -/
def normalizeProviders : ProvidersArg → List Provider
  | .absent => []
  | .single p => [p]
  | .list ps => ps

/-- The tenant list produced by one validated provider. -/
def providerTenants (p : Provider) : List Tenant :=
  p.loadTenants.getD []

/-- Property lookup in the tenants collection (a JavaScript object keyed by
tenant name, modelled as an insertion-ordered list of records). -/
def lookupT (n : String) : List Tenant → Option Tenant
  | [] => none
  | t :: rest => if t.name = n then some t else lookupT n rest

/-- `tenants[tenant.name] = tenant` when the key already exists: the record
at that key is replaced in place. -/
def replaceT (ts : List Tenant) (t : Tenant) : List Tenant :=
  ts.map (fun u => if u.name = t.name then t else u)

/-- The per-record body of the `loadTenants` accumulation loop: if the name
is already present, the new record first layers the old record's config
beneath its own (`tenant.applyDefaults(tenants[tenant.name].config)`) and
then replaces the old record; otherwise it is inserted at the end. -/
def insertTenant (ts : List Tenant) (t : Tenant) : List Tenant :=
  match lookupT t.name ts with
  | some old => replaceT ts (t.applyDefaults old.config)
  | none => ts ++ [t]

/-- The nested `providers.forEach`/`forEach` accumulation of
`Landlord.loadTenants`, starting from the empty collection. -/
def accumulateTenants (provs : List Provider) : List Tenant :=
  provs.foldl (fun acc p => (providerTenants p).foldl insertTenant acc) []

/-- All records produced by the providers, in load order (used to state
properties of the accumulation). -/
def allProviderTenants : List Provider → List Tenant
  | [] => []
  | p :: rest => providerTenants p ++ allProviderTenants rest

/-- All records the normalized sources produce, in order. -/
def sourcedTenants (arg : ProvidersArg) : List Tenant :=
  allProviderTenants (normalizeProviders arg)

/-- The default-application pass of `Landlord.loadTenants`: if a record
named `_default_` exists and its config is truthy, every record in the
collection (the sentinel included) has that config applied as defaults. -/
def applyDefaultsStage (ts : List Tenant) : List Tenant :=
  match lookupT "_default_" ts with
  | none => ts
  | some dt =>
      if dt.config.truthyV then ts.map (fun t => t.applyDefaults dt.config)
      else ts

/-- The error taxonomy of `Landlord.loadTenants`, classifying the two
`throw new Error(...)` sites of `landlord.js` per the spec's names; each
constructor carries the thrown message. -/
inductive LandlordError : Type where
  | invalidArgument (msg : String)
  | noTenantsFound (msg : String)

/-- `Landlord.loadTenants(options)`: reject a falsy `options.providers`;
normalize to a list; reject (naming `typeof provider`) any entry without a
`loadTenants` function; accumulate all records merging duplicates; reject
an empty result; apply the `_default_` sentinel's config. -/
def Landlord.loadTenants (arg : ProvidersArg) : Except LandlordError (List Tenant) :=
  match arg with
  | .absent => .error (.invalidArgument "landlord: Missing {options.providers}.")
  | _ =>
    match (normalizeProviders arg).find? (fun p => p.loadTenants.isNone) with
    | some p =>
        .error (.invalidArgument
          ("landlord: Provider " ++ p.typeofStr ++ " missing {provider.loadTenants}."))
    | none =>
        let ts := accumulateTenants (normalizeProviders arg)
        if ts.isEmpty then
          .error (.noTenantsFound "landlord: No configs were found.")
        else
          .ok (applyDefaultsStage ts)

/-- The `Object.values(tenants).forEach(tenant => tenant.detachDatabase())`
loop of `Landlord.detachDatabases`: a finalizer throw propagates out of the
loop, leaving the remaining records untouched. -/
def detachAll : List Tenant → List Tenant × Option String
  | [] => ([], none)
  | t :: rest =>
    match t.detachDatabase with
    | (t', some e) => (t' :: rest, some e)
    | (t', none) =>
        let r := detachAll rest
        (t' :: r.1, r.2)

/-- `Landlord.detachDatabases(tenants, options)` (logging omitted). -/
def Landlord.detachDatabases (ts : List Tenant) : List Tenant × Option String :=
  detachAll ts

/-- The request-binding options of the Express integration layer:
`options.req.path` (the request property to decorate) and
`options.req.tenantHeader`. -/
structure ReqOptions : Type where
  path : String
  tenantHeader : Option String

/-- An incoming request, as far as the binder reads it. -/
structure Request : Type where
  hostname : String
  headers : List (String × String)

/-- `req.header(name)` — `none` models JavaScript `undefined` when the
header is absent. -/
def Request.header (r : Request) (n : String) : Option String :=
  (r.headers.find? (fun p => p.1 = n)).map (fun p => p.2)

/-- The lookup key of the middleware: the configured header's value when
`options.req.tenantHeader` is truthy (a non-empty string), else
`req.hostname`.  `none` models an `undefined` key (absent header), which
matches no record. -/
def requestKey (opts : ReqOptions) (req : Request) : Option String :=
  match opts.tenantHeader with
  | none => some req.hostname
  | some h => if h = "" then some req.hostname else req.header h

/-- The outcome of one middleware invocation: either `next(httpError(403,
'Invalid tenant.'))` was called (downstream handlers are skipped), or the
record was attached at `req[options.req.path]` and `next()` was called. -/
inductive BindOutcome : Type where
  | rejected (status : Nat) (msg : String)
  | proceeded (path : String) (t : Tenant)

/-- The `bindTenantToRequest` middleware returned by
`ExpressLandlord.use()`. -/
def bindTenantToRequest (opts : ReqOptions) (ts : List Tenant)
    (req : Request) : BindOutcome :=
  match requestKey opts req with
  | none => .rejected 403 "Invalid tenant."
  | some k =>
    match lookupT k ts with
    | none => .rejected 403 "Invalid tenant."
    | some t => .proceeded opts.path t

/-- The config stored for name `n` in a collection. -/
def configOf (n : String) (ts : List Tenant) : Option JVal :=
  (lookupT n ts).map Tenant.config

/-- The names of a collection's records, in insertion order. -/
def namesOf (ts : List Tenant) : List String :=
  ts.map Tenant.name

/-- Layer a sequence of configs on top of an (optional) accumulated config:
each later config is merged on top of the accumulated one. -/
def mergeInto : Option JVal → List JVal → Option JVal
  | o, [] => o
  | none, c :: cs => mergeInto (some c) cs
  | some a, c :: cs => mergeInto (some (mergeVal a c)) cs

theorem applyDefaults_name (t : Tenant) (d : JVal) :
    (t.applyDefaults d).name = t.name := rfl

theorem lookupT_eq_none_iff {n : String} {ts : List Tenant} :
    lookupT n ts = none ↔ n ∉ namesOf ts := by
  induction ts with
  | nil => simp [lookupT, namesOf]
  | cons hd tl ih =>
    by_cases hk : hd.name = n
    · simp [lookupT, hk, namesOf]
    · simp [lookupT, hk, namesOf, Ne.symm hk]
      simpa [namesOf] using ih

theorem lookupT_append (n : String) (as bs : List Tenant) :
    lookupT n (as ++ bs)
      = match lookupT n as with
        | some t => some t
        | none => lookupT n bs := by
  induction as with
  | nil => simp [lookupT]
  | cons hd tl ih =>
    by_cases hk : hd.name = n
    · simp [lookupT, hk]
    · simpa [lookupT, hk] using ih

theorem lookupT_eq_of_nodup {ts : List Tenant} {t : Tenant}
    (hnd : (namesOf ts).Nodup) (hm : t ∈ ts) : lookupT t.name ts = some t := by
  induction ts with
  | nil => cases hm
  | cons hd tl ih =>
    rw [namesOf, List.map_cons, List.nodup_cons] at hnd
    rcases List.mem_cons.mp hm with h1 | h1
    · subst h1; simp [lookupT]
    · have hk : hd.name ≠ t.name := by
        intro heq
        exact hnd.1 (heq ▸ List.mem_map.mpr ⟨t, h1, rfl⟩)
      simp only [lookupT, if_neg hk]
      exact ih hnd.2 h1

theorem namesOf_replaceT {ts : List Tenant} {t : Tenant} :
    namesOf (replaceT ts t) = namesOf ts := by
  induction ts with
  | nil => rfl
  | cons hd tl ih =>
    simp only [replaceT, namesOf, List.map_cons] at ih ⊢
    by_cases hk : hd.name = t.name
    · rw [if_pos hk, ih, hk]
    · rw [if_neg hk, ih]

theorem lookupT_replaceT_hit {ts : List Tenant} {t : Tenant} {old : Tenant}
    (h : lookupT t.name ts = some old) :
    lookupT t.name (replaceT ts t) = some t := by
  induction ts with
  | nil => cases h
  | cons hd tl ih =>
    by_cases hk : hd.name = t.name
    · simp [replaceT, lookupT, hk]
    · rw [lookupT, if_neg hk] at h
      simp only [replaceT, List.map_cons, if_neg hk]
      rw [lookupT, if_neg hk]
      exact ih h

theorem lookupT_replaceT_miss {ts : List Tenant} {t : Tenant} {n : String}
    (h : t.name ≠ n) : lookupT n (replaceT ts t) = lookupT n ts := by
  induction ts with
  | nil => rfl
  | cons hd tl ih =>
    simp only [replaceT, List.map_cons] at ih ⊢
    rw [lookupT, lookupT]
    by_cases hk : hd.name = t.name
    · rw [if_pos hk, if_neg h, if_neg (hk ▸ h : hd.name ≠ n)]
      exact ih
    · rw [if_neg hk]
      by_cases hn : hd.name = n
      · rw [if_pos hn, if_pos hn]
      · rw [if_neg hn, if_neg hn]
        exact ih

theorem namesOf_insertTenant (ts : List Tenant) (t : Tenant) :
    namesOf (insertTenant ts t)
      = match lookupT t.name ts with
        | some _ => namesOf ts
        | none => namesOf ts ++ [t.name] := by
  rw [insertTenant]
  cases h : lookupT t.name ts with
  | some old => rw [namesOf_replaceT]
  | none => simp [namesOf]

theorem nodup_insertTenant {ts : List Tenant} (t : Tenant)
    (hnd : (namesOf ts).Nodup) : (namesOf (insertTenant ts t)).Nodup := by
  rw [namesOf_insertTenant]
  cases h : lookupT t.name ts with
  | some old => exact hnd
  | none =>
    have hni : t.name ∉ namesOf ts := lookupT_eq_none_iff.mp h
    simp [List.nodup_append, hnd, hni]

theorem configOf_insertTenant_hit {ts : List Tenant} {t : Tenant} {old : JVal}
    (h : configOf t.name ts = some old) :
    configOf t.name (insertTenant ts t) = some (mergeVal old t.config) := by
  rw [configOf, Option.map_eq_some'] at h
  obtain ⟨u, hu, huc⟩ := h
  rw [insertTenant, hu, configOf]
  have h2 : lookupT (t.applyDefaults u.config).name ts = some u := by
    rw [applyDefaults_name]
    exact hu
  have h3 := lookupT_replaceT_hit h2
  rw [applyDefaults_name] at h3
  rw [h3]
  simp [Tenant.applyDefaults, huc]

theorem configOf_insertTenant_new {ts : List Tenant} {t : Tenant}
    (h : lookupT t.name ts = none) :
    configOf t.name (insertTenant ts t) = some t.config := by
  rw [insertTenant, h, configOf, lookupT_append, h]
  simp [lookupT]

theorem configOf_insertTenant_other {ts : List Tenant} {t : Tenant} {n : String}
    (h : t.name ≠ n) :
    configOf n (insertTenant ts t) = configOf n ts := by
  rw [insertTenant]
  cases hl : lookupT t.name ts with
  | some old =>
    rw [configOf, configOf,
      lookupT_replaceT_miss (by rw [applyDefaults_name]; exact h)]
  | none =>
    rw [configOf, configOf, lookupT_append]
    cases h2 : lookupT n ts with
    | some u => rfl
    | none => simp [lookupT, h]

theorem mergeInto_nil (o : Option JVal) : mergeInto o [] = o := by
  cases o <;> rfl

theorem nodup_foldl_insertTenant (inputs : List Tenant) :
    ∀ acc : List Tenant, (namesOf acc).Nodup →
      (namesOf (inputs.foldl insertTenant acc)).Nodup := by
  induction inputs with
  | nil => intro acc h; exact h
  | cons hd tl ih =>
    intro acc h
    exact ih (insertTenant acc hd) (nodup_insertTenant hd h)

theorem configOf_foldl_insertTenant (n : String) (inputs : List Tenant) :
    ∀ acc : List Tenant,
      configOf n (inputs.foldl insertTenant acc)
        = mergeInto (configOf n acc)
            ((inputs.filter (fun t => t.name = n)).map Tenant.config) := by
  induction inputs with
  | nil =>
    intro acc
    rw [List.foldl_nil, List.filter_nil, List.map_nil, mergeInto_nil]
  | cons hd tl ih =>
    intro acc
    rw [List.foldl_cons, ih (insertTenant acc hd)]
    by_cases hn : hd.name = n
    · subst hn
      rw [List.filter_cons_of_pos (by simp), List.map_cons]
      cases h : configOf hd.name acc with
      | some old =>
        rw [configOf_insertTenant_hit h, mergeInto]
      | none =>
        rw [configOf_insertTenant_new
          (by rw [configOf, Option.map_eq_none'] at h; exact h), mergeInto]
    · rw [configOf_insertTenant_other hn,
        List.filter_cons_of_neg (by simp [hn])]

theorem mergeInto_some (a : JVal) (cs : List JVal) :
    mergeInto (some a) cs = some (cs.foldl mergeVal a) := by
  induction cs generalizing a with
  | nil => rfl
  | cons hd tl ih => rw [mergeInto, ih, List.foldl_cons]

theorem mergeInto_eq_none_iff {o : Option JVal} {cs : List JVal} :
    mergeInto o cs = none ↔ o = none ∧ cs = [] := by
  cases o with
  | some a => rw [mergeInto_some]; simp
  | none =>
    cases cs with
    | nil => simp [mergeInto]
    | cons hd tl => rw [mergeInto, mergeInto_some]; simp

theorem accumulateTenants_eq (provs : List Provider) :
    accumulateTenants provs = (allProviderTenants provs).foldl insertTenant [] := by
  rw [accumulateTenants]
  suffices h : ∀ acc : List Tenant,
      provs.foldl (fun acc p => (providerTenants p).foldl insertTenant acc) acc
        = (allProviderTenants provs).foldl insertTenant acc from h []
  induction provs with
  | nil => intro acc; rfl
  | cons hd tl ih =>
    intro acc
    rw [List.foldl_cons, ih, allProviderTenants, List.foldl_append]

theorem nodup_accumulateTenants (provs : List Provider) :
    (namesOf (accumulateTenants provs)).Nodup := by
  rw [accumulateTenants_eq]
  exact nodup_foldl_insertTenant _ [] (by simp [namesOf])

theorem configOf_accumulateTenants (n : String) (provs : List Provider) :
    configOf n (accumulateTenants provs)
      = mergeInto none
          (((allProviderTenants provs).filter (fun t => t.name = n)).map
            Tenant.config) := by
  rw [accumulateTenants_eq, configOf_foldl_insertTenant]
  rfl

theorem mem_namesOf {n : String} {ts : List Tenant} :
    n ∈ namesOf ts ↔ ∃ t ∈ ts, t.name = n := by
  simp [namesOf]

theorem filter_name_eq_nil_iff {n : String} {ts : List Tenant} :
    ts.filter (fun t => t.name = n) = [] ↔ n ∉ namesOf ts := by
  rw [List.filter_eq_nil_iff]
  constructor
  · intro h hm
    obtain ⟨t, ht, htn⟩ := mem_namesOf.mp hm
    exact h t ht (by simp [htn])
  · intro h t ht
    simp only [decide_eq_true_eq]
    intro heq
    exact h (mem_namesOf.mpr ⟨t, ht, heq⟩)

theorem mem_namesOf_accumulate_iff (n : String) (provs : List Provider) :
    n ∈ namesOf (accumulateTenants provs)
      ↔ n ∈ namesOf (allProviderTenants provs) := by
  have h1 : configOf n (accumulateTenants provs) = none
      ↔ ((allProviderTenants provs).filter (fun t => t.name = n)) = [] := by
    rw [configOf_accumulateTenants, mergeInto_eq_none_iff]
    constructor
    · intro h
      exact List.map_eq_nil_iff.mp h.2
    · intro h
      exact ⟨rfl, by rw [h, List.map_nil]⟩
  have h2 : configOf n (accumulateTenants provs) = none
      ↔ lookupT n (accumulateTenants provs) = none := by
    rw [configOf, Option.map_eq_none']
  constructor
  · intro hm
    by_contra hnm
    have hf := filter_name_eq_nil_iff.mpr hnm
    exact (lookupT_eq_none_iff.mp (h2.mp (h1.mpr hf))) hm
  · intro hm
    by_contra hnm
    have hc := h2.mpr (lookupT_eq_none_iff.mpr hnm)
    exact (filter_name_eq_nil_iff.mp (h1.mp hc)) hm

theorem all_isSome_find?_none {provs : List Provider}
    (hval : (provs.all fun p => p.loadTenants.isSome) = true) :
    provs.find? (fun p => p.loadTenants.isNone) = none := by
  rw [List.find?_eq_none]
  intro p hp
  have h := List.all_eq_true.mp hval p hp
  cases hc : p.loadTenants with
  | none => rw [hc] at h; cases h
  | some ts => simp [hc]

theorem loadTenants_eq_of_valid {arg : ProvidersArg} (hne : arg ≠ .absent)
    (hval : ((normalizeProviders arg).all fun p => p.loadTenants.isSome) = true) :
    Landlord.loadTenants arg
      = (if (accumulateTenants (normalizeProviders arg)).isEmpty then
           .error (.noTenantsFound "landlord: No configs were found.")
         else .ok (applyDefaultsStage (accumulateTenants (normalizeProviders arg)))) := by
  have hfind := all_isSome_find?_none hval
  cases arg with
  | absent => exact absurd rfl hne
  | single p =>
    simp only [Landlord.loadTenants]
    rw [hfind]
  | list ps =>
    simp only [Landlord.loadTenants]
    rw [hfind]

theorem applyDefaultsStage_no_sentinel {ts : List Tenant}
    (h : lookupT "_default_" ts = none) : applyDefaultsStage ts = ts := by
  rw [applyDefaultsStage, h]

theorem applyDefaultsStage_sentinel {ts : List Tenant} {dt : Tenant}
    (h : lookupT "_default_" ts = some dt) (ht : dt.config.truthyV = true) :
    applyDefaultsStage ts = ts.map (fun t => t.applyDefaults dt.config) := by
  rw [applyDefaultsStage, h]
  exact if_pos ht

theorem lookupT_map_applyDefaults (n : String) (d : JVal) (ts : List Tenant) :
    lookupT n (ts.map fun t => t.applyDefaults d)
      = (lookupT n ts).map fun t => t.applyDefaults d := by
  induction ts with
  | nil => rfl
  | cons hd tl ih =>
    rw [List.map_cons, lookupT, lookupT]
    by_cases hk : hd.name = n
    · rw [if_pos (show (hd.applyDefaults d).name = n from hk), if_pos hk]
      rfl
    · rw [if_neg (show (hd.applyDefaults d).name ≠ n from hk), if_neg hk]
      exact ih

theorem not_mem_of_all_bne {n : String} {ts : List Tenant}
    (h : (ts.all fun t => t.name != n) = true) : n ∉ namesOf ts := by
  intro hm
  obtain ⟨t, ht, htn⟩ := mem_namesOf.mp hm
  have := List.all_eq_true.mp h t ht
  rw [htn] at this
  simp at this

theorem isEmpty_false_of_ne_nil {ts : List Tenant} (h : ts ≠ []) :
    ts.isEmpty = false := by
  cases ts with
  | nil => exact absurd rfl h
  | cons hd tl => rfl

/-- C1: for every non-empty list of valid sources producing at least one
tenant (and no sentinel record, so that resolution stops at the merge
stage), `Landlord.loadTenants` succeeds and returns a collection with
exactly one record per distinct tenant name across all sources, and the
config stored for a name is the fold of that name's configs in load
order, each later config merged on top of the earlier accumulation. -/
theorem loadTenants_distinct_names_merge (arg : ProvidersArg)
    (hval : ((normalizeProviders arg).all fun p => p.loadTenants.isSome) = true)
    (hne : (sourcedTenants arg).isEmpty = false)
    (hnd : ((sourcedTenants arg).all fun t => t.name != "_default_") = true) :
    ∃ ts, Landlord.loadTenants arg = .ok ts
      ∧ (namesOf ts).Nodup
      ∧ (∀ n, n ∈ namesOf ts ↔ n ∈ namesOf (sourcedTenants arg))
      ∧ (∀ n c cs,
          ((sourcedTenants arg).filter (fun t => t.name = n)).map Tenant.config
            = c :: cs →
          configOf n ts = some (cs.foldl mergeVal c)) := by
  have hne' : arg ≠ .absent := by
    intro h
    subst h
    cases hne
  have hsrc : sourcedTenants arg ≠ [] := by
    intro h
    rw [h] at hne
    cases hne
  have hmem : ∀ n, n ∈ namesOf (accumulateTenants (normalizeProviders arg))
      ↔ n ∈ namesOf (sourcedTenants arg) := fun n =>
    mem_namesOf_accumulate_iff n (normalizeProviders arg)
  have hacc_ne : accumulateTenants (normalizeProviders arg) ≠ [] := by
    intro h
    cases hs : sourcedTenants arg with
    | nil => exact hsrc hs
    | cons t rest =>
      have hm : t.name ∈ namesOf (sourcedTenants arg) := by
        rw [hs]
        exact List.mem_map.mpr ⟨t, List.mem_cons_self _ _, rfl⟩
      have := (hmem t.name).mpr hm
      rw [h] at this
      cases this
  have hsent : lookupT "_default_" (accumulateTenants (normalizeProviders arg))
      = none := by
    rw [lookupT_eq_none_iff]
    intro hm
    exact not_mem_of_all_bne hnd ((hmem "_default_").mp hm)
  refine ⟨accumulateTenants (normalizeProviders arg), ?_, ?_, ?_, ?_⟩
  · rw [loadTenants_eq_of_valid hne' hval, isEmpty_false_of_ne_nil hacc_ne,
      applyDefaultsStage_no_sentinel hsent]
    rfl
  · exact nodup_accumulateTenants _
  · exact hmem
  · intro n c cs hcs
    rw [configOf_accumulateTenants]
    have : allProviderTenants (normalizeProviders arg) = sourcedTenants arg := rfl
    rw [this, hcs, mergeInto, mergeInto_some]

/-- C2: whenever the accumulated collection contains a record named
`_default_` (with the expected well-formed, truthy config), resolution
succeeds and applies that config as the base layer beneath every other
record's config (the record's own values win, per the merge direction),
while the sentinel record's own config is left unchanged. -/
theorem loadTenants_default_applied (arg : ProvidersArg) (d : JVal)
    (hval : ((normalizeProviders arg).all fun p => p.loadTenants.isSome) = true)
    (hd : configOf "_default_" (accumulateTenants (normalizeProviders arg))
        = some d)
    (hdt : d.truthyV = true)
    (hwf : WFb d = true) :
    ∃ ts, Landlord.loadTenants arg = .ok ts
      ∧ (∀ t ∈ accumulateTenants (normalizeProviders arg),
          t.name ≠ "_default_" → configOf t.name ts = some (mergeVal d t.config))
      ∧ configOf "_default_" ts = some d := by
  have hne' : arg ≠ .absent := by
    intro h
    subst h
    cases hd
  rw [configOf, Option.map_eq_some'] at hd
  obtain ⟨dt, hdl, hdc⟩ := hd
  have hacc_ne : accumulateTenants (normalizeProviders arg) ≠ [] := by
    intro h
    rw [h] at hdl
    cases hdl
  have hstage : applyDefaultsStage (accumulateTenants (normalizeProviders arg))
      = (accumulateTenants (normalizeProviders arg)).map
          (fun t => t.applyDefaults d) := by
    rw [applyDefaultsStage_sentinel hdl (by rw [hdc]; exact hdt), hdc]
  refine ⟨(accumulateTenants (normalizeProviders arg)).map
      (fun t => t.applyDefaults d), ?_, ?_, ?_⟩
  · rw [loadTenants_eq_of_valid hne' hval, isEmpty_false_of_ne_nil hacc_ne, hstage]
    rfl
  · intro t ht _
    rw [configOf, lookupT_map_applyDefaults,
      lookupT_eq_of_nodup (nodup_accumulateTenants _) ht]
    rfl
  · rw [configOf, lookupT_map_applyDefaults, hdl]
    show some (mergeVal d dt.config) = some d
    rw [hdc, mergeVal_self hwf]

/-- C4: when the (valid, consulted) sources together produce zero tenant
records, `Landlord.loadTenants` fails with `NoTenantsFound` instead of
returning an empty collection. -/
theorem loadTenants_noTenantsFound (arg : ProvidersArg)
    (hne : arg ≠ .absent)
    (hval : ((normalizeProviders arg).all fun p => p.loadTenants.isSome) = true)
    (hz : sourcedTenants arg = []) :
    Landlord.loadTenants arg
      = .error (.noTenantsFound "landlord: No configs were found.") := by
  have hacc : accumulateTenants (normalizeProviders arg) = [] := by
    rw [accumulateTenants_eq]
    have : allProviderTenants (normalizeProviders arg) = [] := hz
    rw [this]
    rfl
  rw [loadTenants_eq_of_valid hne hval, hacc]
  rfl

/-- Does a `loadTenants` result carry an `InvalidArgument` error? -/
def isInvalidArgument : Except LandlordError (List Tenant) → Bool
  | .error (.invalidArgument _) => true
  | _ => false

/-- C5 counterexample: an *empty* supplied sources array is truthy in
JavaScript, passes the `!options.providers` check, and reaches the
empty-collection check instead — `loadTenants` fails with
`NoTenantsFound`, not `InvalidArgument`. -/
theorem loadTenants_emptyList_noTenantsFound :
    Landlord.loadTenants (.list [])
        = .error (.noTenantsFound "landlord: No configs were found.")
      ∧ isInvalidArgument (Landlord.loadTenants (.list [])) = false :=
  ⟨rfl, rfl⟩

theorem find?_isNone_concat (pre : List Provider) (p : Provider)
    (post : List Provider)
    (hpre : (pre.all fun q => q.loadTenants.isSome) = true)
    (hp : p.loadTenants = none) :
    (pre ++ p :: post).find? (fun q => q.loadTenants.isNone) = some p := by
  induction pre with
  | nil =>
    rw [List.nil_append]
    exact List.find?_cons_of_pos _ (by simp [hp])
  | cons hd tl ih =>
    rw [List.all_cons, Bool.and_eq_true] at hpre
    have hhd : hd.loadTenants.isNone = false := by
      cases h : hd.loadTenants with
      | none => rw [h] at hpre; cases hpre.1
      | some ts => rfl
    rw [List.cons_append, List.find?_cons_of_neg _ (by simp [hhd])]
    exact ih hpre.2

/-- C5 (amended): `loadTenants` fails with `InvalidArgument` when the
sources argument is absent/falsy; a single source is normalized to a
one-element list (it behaves exactly like the singleton array); and when
any supplied source lacks a `loadTenants` function, it fails with
`InvalidArgument` naming the first offending entry's `typeof`, before any
source is consulted.  (An *empty* supplied list is not rejected here; it
falls through to `NoTenantsFound`, see the counterexample.) -/
theorem loadTenants_invalidArgument_cases :
    (Landlord.loadTenants .absent
        = .error (.invalidArgument "landlord: Missing {options.providers}."))
    ∧ (∀ p, Landlord.loadTenants (.single p) = Landlord.loadTenants (.list [p]))
    ∧ (∀ arg pre p post, arg ≠ .absent →
        normalizeProviders arg = pre ++ p :: post →
        (pre.all fun q => q.loadTenants.isSome) = true →
        p.loadTenants = none →
        Landlord.loadTenants arg
          = .error (.invalidArgument
              ("landlord: Provider " ++ p.typeofStr
                ++ " missing {provider.loadTenants}."))) := by
  refine ⟨rfl, fun p => rfl, ?_⟩
  intro arg pre p post hne heq hpre hp
  have hfind := find?_isNone_concat pre p post hpre hp
  cases arg with
  | absent => exact absurd rfl hne
  | single q =>
    simp only [Landlord.loadTenants]
    rw [heq, hfind]
  | list ps =>
    simp only [Landlord.loadTenants]
    rw [heq, hfind]

/-- C3: the middleware computes the lookup key from the configured header
when one is set (JavaScript-truthy), else from the request's hostname;
a key with no matching record is rejected with HTTP 403 "Invalid tenant."
and downstream processing is not reached; a matching record is attached
under the configured request property and processing proceeds. -/
theorem bindTenant_spec (opts : ReqOptions) (ts : List Tenant) (req : Request) :
    ((opts.tenantHeader = none ∨ opts.tenantHeader = some "") →
        requestKey opts req = some req.hostname)
    ∧ (∀ h, opts.tenantHeader = some h → h ≠ "" →
        requestKey opts req = req.header h)
    ∧ (∀ k, requestKey opts req = some k → lookupT k ts = none →
        bindTenantToRequest opts ts req = .rejected 403 "Invalid tenant.")
    ∧ (requestKey opts req = none →
        bindTenantToRequest opts ts req = .rejected 403 "Invalid tenant.")
    ∧ (∀ k t, requestKey opts req = some k → lookupT k ts = some t →
        bindTenantToRequest opts ts req = .proceeded opts.path t) := by
  refine ⟨?_, ?_, ?_, ?_, ?_⟩
  · rintro (h | h) <;> rw [requestKey, h]
    rfl
  · intro h hh hne
    rw [requestKey, hh]
    show (if h = "" then some req.hostname else req.header h) = req.header h
    rw [if_neg hne]
  · intro k hk hl
    rw [bindTenantToRequest, hk]
    show (match lookupT k ts with
          | none => BindOutcome.rejected 403 "Invalid tenant."
          | some t => BindOutcome.proceeded opts.path t)
        = BindOutcome.rejected 403 "Invalid tenant."
    rw [hl]
  · intro hk
    rw [bindTenantToRequest, hk]
  · intro k t hk hl
    rw [bindTenantToRequest, hk]
    show (match lookupT k ts with
          | none => BindOutcome.rejected 403 "Invalid tenant."
          | some t => BindOutcome.proceeded opts.path t)
        = BindOutcome.proceeded opts.path t
    rw [hl]

theorem attach_unattached {t : Tenant} (h : t.db.truthy = false)
    (f2 : JVal → JsVal) (fin2 : Option Finalizer) (cfg2 : JVal) :
    t.attachDatabase f2 fin2 cfg2
      = .ok { t with db := f2 cfg2, dbFinalizer := fin2 } := by
  rw [Tenant.attachDatabase, if_neg (by rw [h]; exact Bool.false_ne_true)]

theorem attach_attached {t : Tenant} (h : t.db.truthy = true)
    (f2 : JVal → JsVal) (fin2 : Option Finalizer) (cfg2 : JVal) :
    t.attachDatabase f2 fin2 cfg2
      = .error (.alreadyAttached "tenant: Database already attached.") := by
  rw [Tenant.attachDatabase, if_pos h]

theorem detach_unattached {u : Tenant} (hu : u.db.truthy = false) :
    u.detachDatabase = ({ u with db := .nullV, dbFinalizer := none }, none) := by
  rw [Tenant.detachDatabase, if_neg (by rw [hu]; exact Bool.false_ne_true)]

theorem detach_no_finalizer {t : Tenant} (h : t.dbFinalizer = none) :
    t.detachDatabase = ({ t with db := .nullV, dbFinalizer := none }, none) := by
  rw [Tenant.detachDatabase]
  by_cases hdb : t.db.truthy = true
  · rw [if_pos hdb, h]
  · rw [if_neg hdb]

theorem detach_attached_ok {t : Tenant} {g : Finalizer}
    (hdb : t.db.truthy = true) (hfin : t.dbFinalizer = some g)
    (hok : g t.db = none) :
    t.detachDatabase = ({ t with db := .nullV, dbFinalizer := none }, none) := by
  rw [Tenant.detachDatabase, if_pos hdb, hfin]
  show (match g t.db with
        | some e => (t, some e)
        | none => ({ t with db := .nullV, dbFinalizer := none }, none))
      = ({ t with db := .nullV, dbFinalizer := none }, none)
  rw [hok]

theorem detach_attached_throw {t : Tenant} {g : Finalizer} {e : String}
    (hdb : t.db.truthy = true) (hfin : t.dbFinalizer = some g)
    (herr : g t.db = some e) :
    t.detachDatabase = (t, some e) := by
  rw [Tenant.detachDatabase, if_pos hdb, hfin]
  show (match g t.db with
        | some e => (t, some e)
        | none => ({ t with db := .nullV, dbFinalizer := none }, none))
      = (t, some e)
  rw [herr]

/-- C6: starting from an unattached record, attaching a resource (whose
factory yields a truthy handle and whose finalizer, if supplied, does not
throw on it) and then detaching leaves the handle absent; attaching a
second time without detaching fails with `AlreadyAttached`; and detaching
any record whose handle is absent is a non-failing no-op that never
invokes a finalizer. -/
theorem attach_detach_roundtrip (t : Tenant) (factory : JVal → JsVal)
    (fin : Option Finalizer) (cfg : JVal)
    (h0 : t.db.truthy = false)
    (h1 : (factory cfg).truthy = true)
    (h2 : ∀ g, fin = some g → g (factory cfg) = none) :
    ∃ t1, t.attachDatabase factory fin cfg = .ok t1
      ∧ t1.detachDatabase = ({ t1 with db := .nullV, dbFinalizer := none }, none)
      ∧ (∀ f2 fin2 cfg2, t1.attachDatabase f2 fin2 cfg2
            = .error (.alreadyAttached "tenant: Database already attached."))
      ∧ (∀ u : Tenant, u.db.truthy = false →
            u.detachDatabase
              = ({ u with db := .nullV, dbFinalizer := none }, none)) := by
  refine ⟨{ t with db := factory cfg, dbFinalizer := fin }, ?_, ?_, ?_, ?_⟩
  · exact attach_unattached h0 factory fin cfg
  · cases hf : fin with
    | none => exact detach_no_finalizer rfl
    | some g => exact detach_attached_ok h1 rfl (h2 g hf)
  · intro f2 fin2 cfg2
    exact attach_attached h1 f2 fin2 cfg2
  · intro u hu
    exact detach_unattached hu

/-- A concrete record left attached with an always-throwing finalizer. -/
def tenantBoom : Tenant :=
  { name := "boom", config := .obj [], db := .objV 1,
    dbFinalizer := some (fun _ => some "finalizer failed") }

/-- C7 counterexample: there is no try/finally around the finalizer call:
when the finalizer throws, the two clearing assignments never run, so the
record is left in the attached state (its handle is still truthy). -/
theorem detach_throw_leaves_attached :
    tenantBoom.detachDatabase = (tenantBoom, some "finalizer failed")
      ∧ ((tenantBoom.detachDatabase).1).db.truthy = true :=
  ⟨rfl, rfl⟩

/-- C7 (amended): on a record with a truthy handle and a stored finalizer,
`detachDatabase` invokes the finalizer; if the finalizer returns normally,
both the handle and the finalizer are cleared and no error is raised; if
the finalizer throws, the error propagates (it is not swallowed) and the
handle and finalizer are left unchanged — the record remains attached. -/
theorem detach_finalizer_outcomes (t : Tenant) (g : Finalizer)
    (hdb : t.db.truthy = true) (hfin : t.dbFinalizer = some g) :
    (g t.db = none →
        t.detachDatabase = ({ t with db := .nullV, dbFinalizer := none }, none))
    ∧ (∀ e, g t.db = some e → t.detachDatabase = (t, some e)) :=
  ⟨fun hok => detach_attached_ok hdb hfin hok,
   fun _ herr => detach_attached_throw hdb hfin herr⟩

theorem detach_ok_state {t : Tenant} (h : (t.detachDatabase).2 = none) :
    (t.detachDatabase).1 = { t with db := .nullV, dbFinalizer := none } := by
  by_cases hdb : t.db.truthy = true
  · cases hf : t.dbFinalizer with
    | none => rw [detach_no_finalizer hf]
    | some g =>
      cases hg : g t.db with
      | none => rw [detach_attached_ok hdb hf hg]
      | some e =>
        rw [detach_attached_throw hdb hf hg] at h
        cases h
  · rw [detach_unattached (by simpa using hdb)]

theorem detach_err_state {t : Tenant} {e : String}
    (h : (t.detachDatabase).2 = some e) : (t.detachDatabase).1 = t := by
  by_cases hdb : t.db.truthy = true
  · cases hf : t.dbFinalizer with
    | none => rw [detach_no_finalizer hf] at h; cases h
    | some g =>
      cases hg : g t.db with
      | none => rw [detach_attached_ok hdb hf hg] at h; cases h
      | some e2 => rw [detach_attached_throw hdb hf hg]
  · rw [detach_unattached (by simpa using hdb)] at h
    cases h

/-- Concrete two-record collection: the first record's finalizer throws,
the second record is attached and would detach cleanly. -/
def tenantBoomFirst : Tenant :=
  { name := "first", config := .obj [], db := .objV 1,
    dbFinalizer := some (fun _ => some "boom") }

def tenantSecond : Tenant :=
  { name := "second", config := .obj [], db := .objV 2,
    dbFinalizer := some (fun _ => none) }

/-- C8 counterexample: `detachDatabases` has no per-record try/catch: the
first record's finalizer throw propagates out of the loop, the call fails,
and the second record's detach is never attempted (it stays attached). -/
theorem detachDatabases_aborts_on_throw :
    Landlord.detachDatabases [tenantBoomFirst, tenantSecond]
        = ([tenantBoomFirst, tenantSecond], some "boom")
      ∧ tenantSecond.db.truthy = true :=
  ⟨rfl, rfl⟩

/-- C8 (amended): `detachDatabases` calls `detachDatabase` on every record
in order and never fails as long as no record's finalizer throws (in
particular for the empty collection and for unattached records), leaving
every record detached; but when a record's finalizer throws, the error
propagates, that record keeps its state, and the remaining records are
not detached. -/
theorem detachDatabases_outcomes :
    (∀ ts : List Tenant, (∀ t ∈ ts, (t.detachDatabase).2 = none) →
        (Landlord.detachDatabases ts).2 = none
          ∧ ∀ u ∈ (Landlord.detachDatabases ts).1,
              u.db = .nullV ∧ u.dbFinalizer = none)
    ∧ (∀ (pre : List Tenant) (t : Tenant) (post : List Tenant) (e : String),
        (∀ u ∈ pre, (u.detachDatabase).2 = none) →
        (t.detachDatabase).2 = some e →
        Landlord.detachDatabases (pre ++ t :: post)
          = (pre.map (fun u => (u.detachDatabase).1) ++ t :: post, some e)) := by
  constructor
  · intro ts
    induction ts with
    | nil => intro _; exact ⟨rfl, by intro u hu; cases hu⟩
    | cons hd tl ih =>
      intro hts
      have hhd := hts hd (List.mem_cons_self _ _)
      have htl := ih (fun t ht => hts t (List.mem_cons_of_mem _ ht))
      have hsplit : Landlord.detachDatabases (hd :: tl)
          = ((hd.detachDatabase).1 :: (Landlord.detachDatabases tl).1,
             (Landlord.detachDatabases tl).2) := by
        rw [Landlord.detachDatabases, detachAll]
        cases hda : hd.detachDatabase with
        | mk t' e =>
          cases e with
          | none => rfl
          | some e0 =>
            rw [hda] at hhd
            cases hhd
      rw [hsplit]
      refine ⟨htl.1, ?_⟩
      intro u hu
      rcases List.mem_cons.mp hu with h1 | h1
      · subst h1
        rw [detach_ok_state hhd]
        exact ⟨rfl, rfl⟩
      · exact htl.2 u h1
  · intro pre
    induction pre with
    | nil =>
      intro t post e _ ht
      rw [List.nil_append, List.map_nil, List.nil_append,
        Landlord.detachDatabases, detachAll]
      cases hda : t.detachDatabase with
      | mk t' e' =>
        cases e' with
        | none => rw [hda] at ht; cases ht
        | some e0 =>
          rw [hda] at ht
          have h1 : t' = t := by
            have h3 := detach_err_state
              (show (t.detachDatabase).2 = some e0 by rw [hda])
            rw [hda] at h3
            exact h3
          have h2 : e0 = e := by
            cases ht
            rfl
          rw [h1, h2]
    | cons hd tl ih =>
      intro t post e hpre ht
      have hhd := hpre hd (List.mem_cons_self _ _)
      rw [List.cons_append, Landlord.detachDatabases, detachAll]
      cases hda : hd.detachDatabase with
      | mk t' e' =>
        cases e' with
        | some e0 =>
          rw [hda] at hhd
          cases hhd
        | none =>
          have hrec := ih t post e
            (fun u hu => hpre u (List.mem_cons_of_mem _ hu)) ht
          rw [Landlord.detachDatabases] at hrec
          rw [hrec, List.map_cons]
          have h1 : t' = (hd.detachDatabase).1 := by rw [hda]
          rw [h1]
          rfl

/-- C9: `applyDefaults` is idempotent: applying the same (well-formed)
default twice yields the same record as applying it once.  (In this
value-level embedding the default argument is read-only by construction,
mirroring `_.merge({}, defaultConfig, this._config)`, whose destination is
a fresh object.) -/
theorem applyDefaults_idempotent (t : Tenant) (d : JVal) (hwf : WFb d = true) :
    (t.applyDefaults d).applyDefaults d = t.applyDefaults d := by
  simp only [Tenant.applyDefaults]
  rw [mergeVal_idem hwf]

/-- C10: the "already attached" test is truthiness of the stored handle:
if the factory returns a falsy handle, the attach call stores it without
failing, but the record is left effectively unattached — a second attach
succeeds (overwriting the stored finalizer) and a detach never invokes the
stored finalizer (it cannot throw) and just clears both slots. -/
theorem falsy_handle_not_attached (t : Tenant) (factory : JVal → JsVal)
    (fin : Option Finalizer) (cfg : JVal)
    (h0 : t.db.truthy = false)
    (h1 : (factory cfg).truthy = false) :
    ∃ t1, t.attachDatabase factory fin cfg = .ok t1
      ∧ t1.dbFinalizer = fin
      ∧ (∀ f2 fin2 cfg2, t1.attachDatabase f2 fin2 cfg2
            = .ok { t1 with db := f2 cfg2, dbFinalizer := fin2 })
      ∧ t1.detachDatabase = ({ t1 with db := .nullV, dbFinalizer := none }, none) := by
  refine ⟨{ t with db := factory cfg, dbFinalizer := fin }, ?_, rfl, ?_, ?_⟩
  · exact attach_unattached h0 factory fin cfg
  · intro f2 fin2 cfg2
    exact attach_unattached h1 f2 fin2 cfg2
  · exact detach_unattached h1

/-! Concrete inputs used by the witnesses (the spec's own examples). -/

def exTenantA : Tenant :=
  { name := "t", config := .obj [("x", .num 1)], db := .nullV, dbFinalizer := none }

def exTenantB : Tenant :=
  { name := "t", config := .obj [("x", .num 2), ("y", .num 3)],
    db := .nullV, dbFinalizer := none }

def exProvA : Provider := { typeofStr := "object", loadTenants := some [exTenantA] }

def exProvB : Provider := { typeofStr := "object", loadTenants := some [exTenantB] }

def exArgAB : ProvidersArg := .list [exProvA, exProvB]

theorem loadTenants_distinct_names_merge_witness :
    ((normalizeProviders exArgAB).all fun p => p.loadTenants.isSome) = true
    ∧ (sourcedTenants exArgAB).isEmpty = false
    ∧ ((sourcedTenants exArgAB).all fun t => t.name != "_default_") = true
    ∧ configOf "t" (accumulateTenants (normalizeProviders exArgAB))
        = some (.obj [("x", .num 2), ("y", .num 3)])
    ∧ ∃ ts, Landlord.loadTenants exArgAB = .ok ts
        ∧ (namesOf ts).Nodup
        ∧ (∀ n, n ∈ namesOf ts ↔ n ∈ namesOf (sourcedTenants exArgAB))
        ∧ (∀ n c cs,
            ((sourcedTenants exArgAB).filter (fun t => t.name = n)).map
                Tenant.config = c :: cs →
            configOf n ts = some (cs.foldl mergeVal c)) :=
  ⟨rfl, rfl, rfl, rfl, loadTenants_distinct_names_merge exArgAB rfl rfl rfl⟩

def exDefaultCfg : JVal := .obj [("a", .num 1), ("b", .num 2)]

def exTenantDef : Tenant :=
  { name := "_default_", config := exDefaultCfg, db := .nullV, dbFinalizer := none }

def exTenantT : Tenant :=
  { name := "t", config := .obj [("b", .num 99)], db := .nullV, dbFinalizer := none }

def exProvD : Provider :=
  { typeofStr := "object", loadTenants := some [exTenantDef, exTenantT] }

def exArgD : ProvidersArg := .single exProvD

theorem loadTenants_default_applied_witness :
    ((normalizeProviders exArgD).all fun p => p.loadTenants.isSome) = true
    ∧ configOf "_default_" (accumulateTenants (normalizeProviders exArgD))
        = some exDefaultCfg
    ∧ exDefaultCfg.truthyV = true
    ∧ WFb exDefaultCfg = true
    ∧ configOf "t" ((accumulateTenants (normalizeProviders exArgD)).map
          (fun t => t.applyDefaults exDefaultCfg))
        = some (.obj [("a", .num 1), ("b", .num 99)])
    ∧ ∃ ts, Landlord.loadTenants exArgD = .ok ts
        ∧ (∀ t ∈ accumulateTenants (normalizeProviders exArgD),
            t.name ≠ "_default_" →
            configOf t.name ts = some (mergeVal exDefaultCfg t.config))
        ∧ configOf "_default_" ts = some exDefaultCfg :=
  ⟨rfl, rfl, rfl, rfl, rfl,
   loadTenants_default_applied exArgD exDefaultCfg rfl rfl rfl rfl⟩

def exTenantLocal : Tenant :=
  { name := "localhost", config := .obj [("env", .str "dev")],
    db := .nullV, dbFinalizer := none }

def exTenantIp : Tenant :=
  { name := "127.0.0.1", config := .obj [], db := .nullV, dbFinalizer := none }

def exCollection : List Tenant := [exTenantLocal, exTenantIp]

def exOpts : ReqOptions := { path := "tenant", tenantHeader := none }

def exReqLocal : Request := { hostname := "localhost", headers := [] }

def exReqUnknown : Request := { hostname := "unknown-host", headers := [] }

theorem bindTenant_spec_witness :
    bindTenantToRequest exOpts exCollection exReqLocal
        = .proceeded "tenant" exTenantLocal
      ∧ bindTenantToRequest exOpts exCollection exReqUnknown
        = .rejected 403 "Invalid tenant." :=
  ⟨(bindTenant_spec exOpts exCollection exReqLocal).2.2.2.2
      "localhost" exTenantLocal rfl rfl,
   (bindTenant_spec exOpts exCollection exReqUnknown).2.2.1
      "unknown-host" rfl rfl⟩

def exEmptyProv : Provider := { typeofStr := "object", loadTenants := some [] }

theorem loadTenants_noTenantsFound_witness :
    Landlord.loadTenants (.list [exEmptyProv])
      = .error (.noTenantsFound "landlord: No configs were found.") :=
  loadTenants_noTenantsFound (.list [exEmptyProv])
    (fun h => ProvidersArg.noConfusion h) rfl rfl

def exBadProv : Provider := { typeofStr := "object", loadTenants := none }

theorem loadTenants_invalidArgument_witness :
    Landlord.loadTenants (.list [exBadProv])
      = .error (.invalidArgument
          "landlord: Provider object missing {provider.loadTenants}.") :=
  loadTenants_invalidArgument_cases.2.2 (.list [exBadProv]) [] exBadProv []
    (fun h => ProvidersArg.noConfusion h) rfl rfl rfl

def exTenantFresh : Tenant :=
  { name := "t", config := .obj [], db := .nullV, dbFinalizer := none }

def exFactory : JVal → JsVal := fun _ => .objV 7

def exFinalizer : Finalizer := fun _ => none

theorem attach_detach_roundtrip_witness :
    exTenantFresh.db.truthy = false
    ∧ (exFactory (.obj [])).truthy = true
    ∧ ∃ t1, exTenantFresh.attachDatabase exFactory (some exFinalizer) (.obj [])
          = .ok t1
        ∧ t1.detachDatabase = ({ t1 with db := .nullV, dbFinalizer := none }, none)
        ∧ (∀ f2 fin2 cfg2, t1.attachDatabase f2 fin2 cfg2
              = .error (.alreadyAttached "tenant: Database already attached."))
        ∧ (∀ u : Tenant, u.db.truthy = false →
              u.detachDatabase
                = ({ u with db := .nullV, dbFinalizer := none }, none)) :=
  ⟨rfl, rfl,
   attach_detach_roundtrip exTenantFresh exFactory (some exFinalizer) (.obj [])
     rfl rfl (fun g hg => by cases hg; rfl)⟩

def exTenantAttached : Tenant :=
  { name := "t", config := .obj [], db := .objV 3,
    dbFinalizer := some (fun _ => none) }

theorem detach_finalizer_outcomes_witness :
    exTenantAttached.detachDatabase
      = ({ exTenantAttached with db := .nullV, dbFinalizer := none }, none) :=
  (detach_finalizer_outcomes exTenantAttached (fun _ => none) rfl rfl).1 rfl

def exDetachable : Tenant :=
  { name := "a", config := .obj [], db := .objV 1,
    dbFinalizer := some (fun _ => none) }

theorem detachDatabases_outcomes_witness :
    ((Landlord.detachDatabases [exDetachable]).2 = none
      ∧ ∀ u ∈ (Landlord.detachDatabases [exDetachable]).1,
          u.db = .nullV ∧ u.dbFinalizer = none)
    ∧ Landlord.detachDatabases [tenantBoomFirst]
        = ([tenantBoomFirst], some "boom") :=
  ⟨detachDatabases_outcomes.1 [exDetachable]
      (fun t ht => by rw [List.mem_singleton] at ht; subst ht; rfl),
   detachDatabases_outcomes.2 [] tenantBoomFirst [] "boom"
      (fun u hu => by cases hu) rfl⟩

theorem applyDefaults_idempotent_witness :
    WFb exDefaultCfg = true
    ∧ (exTenantT.applyDefaults exDefaultCfg).applyDefaults exDefaultCfg
        = exTenantT.applyDefaults exDefaultCfg :=
  ⟨rfl, applyDefaults_idempotent exTenantT exDefaultCfg rfl⟩

def exNullFactory : JVal → JsVal := fun _ => .nullV

def exThrowFin : Finalizer := fun _ => some "should not run"

theorem falsy_handle_not_attached_witness :
    (exNullFactory (.obj [])).truthy = false
    ∧ ∃ t1, exTenantFresh.attachDatabase exNullFactory (some exThrowFin) (.obj [])
          = .ok t1
        ∧ t1.dbFinalizer = some exThrowFin
        ∧ (∀ f2 fin2 cfg2, t1.attachDatabase f2 fin2 cfg2
              = .ok { t1 with db := f2 cfg2, dbFinalizer := fin2 })
        ∧ t1.detachDatabase
            = ({ t1 with db := .nullV, dbFinalizer := none }, none) :=
  ⟨rfl,
   falsy_handle_not_attached exTenantFresh exNullFactory (some exThrowFin)
     (.obj []) rfl rfl⟩
